import Mathlib

/-!
Verification of the BioQuery-Local query-routing core.

This file gives a shallow embedding of the pure routing logic of the
repository (files `bioquery_local.py`, `llm_parser.py`, `emboss_wrapper.py`)
and proves or refutes the frozen claims about it.  Strings are modelled as
`List Char`; external collaborators (the EMBOSS subprocesses, the NCBI fetch
and the local language model) are modelled as components of an explicit
environment, since their behaviour is outside the repository.  Functions are
translated statement by statement from the Python source; definitions whose
name ends in `Spec` instead follow the words of the specification/claim and
are compared with the source-derived definitions.
-/

/-- Model of a Python string: a list of characters. -/
abbrev Txt := List Char

/-- Characters the Python regex class `\s` matches (ASCII whitespace). -/
def isPySpace (c : Char) : Bool :=
  c = ' ' ∨ c = '\t' ∨ c = '\n' ∨ c = '\r' ∨ c = '\x0b' ∨ c = '\x0c'

/-- Python `str.strip()`: drop whitespace from both ends. -/
def pyStrip (l : Txt) : Txt :=
  ((l.dropWhile isPySpace).reverse.dropWhile isPySpace).reverse

/-- Split a text at newline characters (the line structure used by
`str.splitlines` on the `\n`-separated texts this program handles; blank
lines are skipped by every consumer, so extra empty segments are harmless). -/
def splitNlAux (acc : Txt) : Txt → List Txt
  | [] => [acc.reverse]
  | c :: cs => if c = '\n' then acc.reverse :: splitNlAux [] cs else splitNlAux (c :: acc) cs

/-- Lines of a text. -/
def splitNl (t : Txt) : List Txt := splitNlAux [] t

/-- Uppercase IUPAC nucleotide alphabet, `_IUPAC` in `bioquery_local.py`. -/
def iupacChars : Txt := ['A', 'C', 'G', 'T', 'U', 'R', 'Y', 'K', 'M', 'S', 'W', 'B', 'D', 'H', 'V', 'N']

/-- Membership of an (already uppercased) character in `_IUPAC`. -/
def isIupacUpper (c : Char) : Bool := iupacChars.contains c

/-- Case-insensitive membership in the IUPAC class, as used by the regexes
compiled with `re.I` over `[ACGTURYKMSWBDHVN]`. -/
def isIupacLetter (c : Char) : Bool := isIupacUpper c.toUpper

/-- Case-insensitive membership in `[ATCG]` (the class is applied to the
uppercased query in the source, which is the same thing). -/
def isAcgtLetter (c : Char) : Bool := (['A', 'T', 'C', 'G'] : Txt).contains c.toUpper

/-- Embedding of `_clean_seq_line`: uppercase, keep letters only
(ASCII approximation of `str.isalpha`), rewrite `U` to `T`, then keep
IUPAC characters only. -/
def cleanSeqLine (s : Txt) : Txt :=
  let s1 := (s.map Char.toUpper).filter Char.isAlpha
  let s2 := s1.map (fun c => if c = 'U' then 'T' else c)
  s2.filter isIupacUpper

/-- Maximal runs of characters satisfying `p` (worker with a reversed
accumulator holding the current run). -/
def toRunsAux (p : Char → Bool) (acc : Txt) : Txt → List Txt
  | [] => if acc.isEmpty then [] else [acc.reverse]
  | c :: cs =>
    if p c then toRunsAux p (c :: acc) cs
    else if acc.isEmpty then toRunsAux p [] cs
    else acc.reverse :: toRunsAux p [] cs

/-- Maximal runs of characters satisfying `p`, in order of appearance. -/
def toRuns (p : Char → Bool) (l : Txt) : List Txt := toRunsAux p [] l

/-- Matches of `re.finditer(r"[ACGTURYKMSWBDHVN]{10,}", text, flags=re.I)`:
with a greedy counted repetition of a single character class this is exactly
the list of maximal class runs of length at least 10, in order. -/
def bareRuns (t : Txt) : List Txt := (toRuns isIupacLetter t).filter (fun r => 10 ≤ r.length)

/-- Result of `re.search(r"[ATCG]{10,}", q.upper())`: the first maximal
`[ATCG]` run of length at least 10, taken from the uppercased text. -/
def firstRun10 (q : Txt) : Option Txt :=
  ((toRuns isAcgtLetter q).find? (fun r => 10 ≤ r.length)).map (List.map Char.toUpper)

/-- State loop of the FASTA pass of `extract_sequences_from_text`
(lines 26-43): `inRec`/`cur`/`seqs` are the Python loop variables, `cur`
modelled as the already-joined record text. -/
def fastaLoop : List Txt → Bool → Txt → List Txt → List Txt
  | [], _, cur, seqs => if cur.isEmpty then seqs else seqs ++ [cur]
  | line :: rest, inRec, cur, seqs =>
    let l := pyStrip line
    if l.isEmpty then fastaLoop rest inRec cur seqs
    else if l.head? = some '>' then
      fastaLoop rest true [] (if cur.isEmpty then seqs else seqs ++ [cur])
    else if inRec then
      let cleaned := cleanSeqLine l
      fastaLoop rest inRec (if cleaned.isEmpty then cur else cur ++ cleaned) seqs
    else fastaLoop rest inRec cur seqs

/-- Sequences produced by the FASTA pass of `extract_sequences_from_text`. -/
def fastaSeqs (t : Txt) : List Txt := fastaLoop (splitNl t) false [] []

/-- Embedding of `extract_sequences_from_text` (lines 18-52): FASTA pass,
bare-DNA fallback when the FASTA pass produced nothing, then the length
filter. -/
def extract_sequences_from_text (t : Txt) : List Txt :=
  let seqs := fastaSeqs t
  let seqs := if seqs.isEmpty then (bareRuns t).map cleanSeqLine else seqs
  seqs.filter (fun s => 10 ≤ s.length)

/-- Replacement text for a FASTA header line in `mask_text_for_llm`. -/
def headerMask : Txt := ">[HEADER]".data

/-- Replacement text for a long sequence run in `mask_text_for_llm`. -/
def seqMask : Txt := "[SEQUENCE]".data

/-- Does `\s*>` match here?  Used to decide whether the multiline pattern
`^\s*>.*$` matches at an anchor position (backtracking cannot help: shorter
whitespace prefixes put a whitespace character where `>` is required). -/
def leadsToHeader (l : Txt) : Bool := (l.dropWhile isPySpace).head? = some '>'

/-- Scanner state for the header-masking substitution
`re.sub(r"^\s*>.*$", ">[HEADER]", text, flags=re.M)`. -/
inductive MaskSt where
  | scan (anchor : Bool)
  | skipWs
  | skipLine
deriving DecidableEq

/-- Leftmost, non-overlapping replacement of `^\s*>.*$` by `>[HEADER]`.
`scan anchor` walks the text remembering whether the position is a `^`
anchor (start of string or just after a newline); on a match the matched
span (`\s*`, then `>`, then the rest of the line, stopping before the
newline) is consumed by `skipWs`/`skipLine`. -/
def maskHeadersAux : MaskSt → Txt → Txt
  | _, [] => []
  | .scan anchor, c :: cs =>
    if anchor ∧ leadsToHeader (c :: cs) then
      headerMask ++ (if c = '>' then maskHeadersAux .skipLine cs else maskHeadersAux .skipWs cs)
    else c :: maskHeadersAux (.scan (c = '\n')) cs
  | .skipWs, c :: cs =>
    if c = '>' then maskHeadersAux .skipLine cs else maskHeadersAux .skipWs cs
  | .skipLine, c :: cs =>
    if c = '\n' then c :: maskHeadersAux (.scan true) cs else maskHeadersAux .skipLine cs

/-- Header-masking stage of `mask_text_for_llm` (line 59). -/
def maskHeaders (t : Txt) : Txt := maskHeadersAux (.scan true) t

/-- Flush the pending class run of the run-masking substitution: runs of
length at least 20 become `[SEQUENCE]`, shorter runs are kept verbatim. -/
def flushRun (acc : Txt) : Txt := if 20 ≤ acc.length then seqMask else acc.reverse

/-- Leftmost, non-overlapping replacement of `[ACGTURYKMSWBDHVN]{20,}`
(case-insensitive) by `[SEQUENCE]`: with a greedy counted repetition of one
class this replaces exactly the maximal class runs of length at least 20.
`acc` is the reversed pending run. -/
def maskRunsAux (acc : Txt) : Txt → Txt
  | [] => flushRun acc
  | c :: cs =>
    if isIupacLetter c then maskRunsAux (c :: acc) cs
    else flushRun acc ++ c :: maskRunsAux [] cs

/-- Run-masking stage of `mask_text_for_llm` (line 61). -/
def maskRuns (t : Txt) : Txt := maskRunsAux [] t

/-- Embedding of `mask_text_for_llm` (lines 54-62): mask FASTA header
lines, then mask long sequence runs in the result. -/
def mask_text_for_llm (t : Txt) : Txt := maskRuns (maskHeaders t)

/-- Scanner for the normalization `re.sub(r"(?<!\n)>(?=\S)", "\n>", query)`
(line 137 of `bioquery_local.py`): insert a newline before every `>` that is
not already preceded by a newline and is immediately followed by a
non-whitespace character.  `prevNl` records whether the previous character
of the original text was a newline (initially false: position 0 has no
preceding newline, so the lookbehind succeeds there). -/
def normalizeGtAux (prevNl : Bool) : Txt → Txt
  | [] => []
  | c :: cs =>
    if c = '>' ∧ prevNl = false ∧ (match cs with | d :: _ => isPySpace d | [] => true) = false then
      '\n' :: '>' :: normalizeGtAux false cs
    else c :: normalizeGtAux (c = '\n') cs

/-- Query normalization applied at the top of `process_query`. -/
def normalizeQuery (q : Txt) : Txt := normalizeGtAux false q

/-- Case-insensitive substring test, Python `sub in s.lower()` with a
lowercase needle. -/
def containsSub (needle hay : Txt) : Bool := decide (needle <:+: hay)

/-- Parameters sub-dictionary of a parsed intent.  `patt` models the value
under the key `"pattern"` (the motif).  `mismatch` models the JSON value
under the key `"mismatch"`: `none` when the key is absent, `some (some n)`
when `int(value)` succeeds with `n`, `some none` when the coercion
raises. -/
structure IntentParams where
  patt : Option Txt
  mismatch : Option (Option Int)
deriving DecidableEq

/-- Empty parameters dictionary. -/
def IntentParams.empty : IntentParams := { patt := none, mismatch := none }

/-- Model of the ParsedIntent dictionary. -/
structure ParsedIntent where
  tool : Option Txt
  sequence : Option Txt
  gene_name : Option Txt
  parameters : IntentParams
deriving DecidableEq

/-- Embedding of `LocalLLMParser.simple_parse` (lines 76-108 of
`llm_parser.py`): sequence from the first long `[ATCG]` run of the
uppercased query, tool from an ordered keyword scan of the lowercased
query. -/
def simple_parse (query : Txt) : ParsedIntent :=
  let ql := query.map Char.toLower
  let seq := firstRun10 query
  let tool : Option Txt :=
    if containsSub "translate".data ql then some "translate".data
    else if containsSub "reverse".data ql ∨ containsSub "complement".data ql then some "reverse".data
    else if containsSub "orf".data ql ∨ containsSub "reading frame".data ql then some "find_orfs".data
    else if containsSub "pattern".data ql ∨ containsSub "motif".data ql then some "pattern".data
    else if containsSub "restriction".data ql ∨ containsSub "enzyme".data ql then some "restriction".data
    else if containsSub "gc".data ql then some "gc_content".data
    else none
  { tool := tool, sequence := seq, gene_name := none, parameters := IntentParams.empty }

/-- Python truthiness of an optional string: `None` and `""` are falsy. -/
def truthy : Option Txt → Bool
  | none => false
  | some s => !s.isEmpty

/-- Drop a literal from the front of a text, case-insensitively; `none`
when the text does not start with the literal. -/
def dropCI : Txt → Txt → Option Txt
  | [], l => some l
  | _ :: _, [] => none
  | p :: ps, c :: cs => if p.toLower = c.toLower then dropCI ps cs else none

/-- Numeric value of a digit string (the regex group `(\d+)` fed to `int`). -/
def digitsVal (ds : Txt) : Nat := ds.foldl (fun a c => a * 10 + (c.toNat - 48)) 0

/-- Match of `(?i)mismatch(?:es)?\s*(?:=|:)?\s*(\d+)` at the current
position.  The regex is deterministic here: when `es` follows the literal,
dropping it cannot lead to a match (`e` is neither whitespace, `=`, `:`,
nor a digit), and the optional pieces admit no useful backtracking. -/
def matchMismatchAt (l : Txt) : Option Nat :=
  match dropCI "mismatch".data l with
  | none => none
  | some t =>
    let t := match dropCI "es".data t with | some t2 => t2 | none => t
    let u := t.dropWhile isPySpace
    let v := match u with | c :: r => if c = '=' ∨ c = ':' then r else u | [] => u
    let w := v.dropWhile isPySpace
    let ds := w.takeWhile Char.isDigit
    if ds.isEmpty then none else some (digitsVal ds)

/-- Leftmost match of the first mismatch regex over the whole text
(`re.search` semantics). -/
def searchMismatch1 : Txt → Option Nat
  | [] => none
  | l@(_ :: cs) =>
    match matchMismatchAt l with
    | some n => some n
    | none => searchMismatch1 cs

/-- Match of `(?i)up to\s*(\d+)\s*mismatch` at the current position
(also deterministic: shortening the greedy pieces only puts a digit or a
whitespace character where a literal is required). -/
def matchUpToAt (l : Txt) : Option Nat :=
  match dropCI "up to".data l with
  | none => none
  | some t =>
    let u := t.dropWhile isPySpace
    let ds := u.takeWhile Char.isDigit
    if ds.isEmpty then none
    else
      let w := (u.dropWhile Char.isDigit).dropWhile isPySpace
      if (dropCI "mismatch".data w).isSome then some (digitsVal ds) else none

/-- Leftmost match of the second mismatch regex over the whole text. -/
def searchUpTo : Txt → Option Nat
  | [] => none
  | l@(_ :: cs) =>
    match matchUpToAt l with
    | some n => some n
    | none => searchUpTo cs

/-- Mismatch-count resolution of the pattern branch of `process_query`
(lines 202-213): the LLM-provided parameter coerced to `int` (0 when the
coercion raises) when present, otherwise the two regexes over the raw
query, otherwise 0. -/
def resolveMismatch (parsed : ParsedIntent) (query : Txt) : Int :=
  match parsed.parameters.mismatch with
  | none =>
    match searchMismatch1 query with
    | some n => (n : Int)
    | none =>
      match searchUpTo query with
      | some n => (n : Int)
      | none => 0
  | some coerced =>
    match coerced with
    | some n => n
    | none => 0

/-- Text before the first match of `re.split(r"(?m)^\s*>", query, maxsplit=1)`
(line 196): everything before the first anchor position from which `\s*`
reaches a `>`. -/
def prefaceAux (anchor : Bool) : Txt → Txt
  | [] => []
  | c :: cs =>
    if anchor ∧ leadsToHeader (c :: cs) then []
    else c :: prefaceAux (c = '\n') cs

/-- Portion of the query preceding the first FASTA header. -/
def prefaceBeforeHeader (q : Txt) : Txt := prefaceAux true q

/-- Flush for the motif-candidate scan: the finished class run (reversed in
`acc`) is a candidate when its length is between 3 and 20 and neither the
character before the run (`prevLetter`) nor the one after it (`nextOk`
records that it is absent or not a letter) is an ASCII letter; candidates
are uppercased as in the source. -/
def flushCand (prevLetter : Bool) (acc : Txt) (nextOk : Bool) : List Txt :=
  if !acc.isEmpty ∧ 3 ≤ acc.length ∧ acc.length ≤ 20 ∧ prevLetter = false ∧ nextOk then
    [(acc.reverse).map Char.toUpper]
  else []

/-- Matches of `re.findall(r"(?<![A-Za-z])[ACGTURYKMSWBDHVN]{3,20}(?![A-Za-z])", preface, re.I)`:
exactly the maximal class runs of length 3..20 whose neighbours are not
ASCII letters (longer runs never match: every candidate start or length
leaves a class letter adjacent to the match). -/
def patCandsAux (prevLetter : Bool) (acc : Txt) : Txt → List Txt
  | [] => flushCand prevLetter acc true
  | c :: cs =>
    if isIupacLetter c then patCandsAux prevLetter (c :: acc) cs
    else flushCand prevLetter acc (!c.isAlpha) ++ patCandsAux c.isAlpha [] cs

/-- Motif candidates drawn from a text. -/
def patCands (t : Txt) : List Txt := patCandsAux false [] t

/-- Motif resolution of the pattern branch (lines 192-199): LLM-provided
motif if truthy, else the first candidate from the text before the first
FASTA header, else `"ATG"`. -/
def resolvePattern (parsed : ParsedIntent) (query : Txt) : Txt :=
  let fallback :=
    match patCands (prefaceBeforeHeader query) with
    | c :: _ => c
    | [] => "ATG".data
  match parsed.parameters.patt with
  | some p => if p.isEmpty then fallback else p
  | none => fallback

/-- Example sequences table of `BioQueryLocal.__init__`: the `test_dna`
value is the dedented, stripped FASTA text from the source (lines 74-127),
written as one literal with explicit newlines. -/
def testDna : Txt := ">NC_003364.1:735978-739499 Pyrobaculum aerophilum str. IM2, complete sequence\nATGACTAGCCGCAGGGCTTACCTAAAGGCTATTGCCGCTGCGGCGACGCTTGGAATAGCGCTTTGGGGCT\nACTGGCCAGTAGTTGACAAAATTATAAAGCCGAAGAGAACGCCATATGGACCAGATCCGCAGTTCGGCAC\nAAATGTTAGATATGTCTTCTCGTCGTGTCTTGGATGTAACGTTCGTTGTGGCATAGTGGCCAGAGTGGTG\nAAATATGGCGATGTGGAAGTAATAGAGAGAATAGAGGGGAATCCCTACCACGTCTATAACAGAGCTGTGT\nCCTTTGATAAACAAATAAAGAGATATGCGCCCCTGCCGTACAACACGCCGGTAAAAGAGGCGTTAGAGAA\nGTGGTCAGGCACGTTATGTCCAAGAGGCGCTGATGGAATACACTACGTTTACGATCCCTATAGGGTGTTG\nAAACCTTTAAAACGGGCCGGGCCTAGGGGAAGCGGCAAGTGGAAAGCAATAACTTGGGAGCAGCTAATAA\nATGAGGTGGTAAACGGCGGCGTTATTGAAGAAACGGGGGAGAGGTTGCCGGGGCTGAAAGAGTTCTTCGC\nCTACGGAAAGCTGAAGGAGGCTGGGTTTGAAGATCCAAACGCAATATTAAGCGAGATGAAAATAGATGTT\nGATAACATAATGAAAGTAGCGAGAGATCCCAACAAGACATATGACGATTTAATAAAGGCCATTGAAGAAT\nTTAAAGCTAAGTGGAGCCAGAGGCTGGGCGAAAAGGGCCTAAAATTAGAGGATTTACTAATTGATCCGGA\nCAGGCCTGATCTCGGCACTAAGGCCAATATGGTGATGTATTTAAGAGGGCGCGGCCAGGGACACACAGAC\nTACTTCTCGCAGAGGTGGATATACGCATTTGGCAGCGTTAACTGGACTAGACACACCTCAGCCTGTCAGC\nTAGGGTATTACGCTGGCAATAGTATATGGGCGGGCTATCACGATATACAGGCGGATCCAATAGGCGCCAA\nAGTAATTATAGGCGCCGGCTGGTCTATGGGAAGAGTGCATCCTGGCGCCACAGGACAGGGCCTAATGATC\nGAAAGGGCGTGTGAAGGGGAGCTTAAACTGTACTACGTAAACCCAGTGGCGCCCAGAACAACGTGCAATG\nGCAATATTATTTGGATTCCTGTAAAACCCGGTGAAGATGCCGCGTTGGCTTTCGCCGTAATTAGATGGCT\nTATTGAAAACAAGAGGTATAACGAAGAGTTCCTCTCCATACCTAATAGAGACTCGGCGAAAAAATTAGGC\nTACCCGGTTAACACAAATGCCACTTGGCTCGTGATTACAGAGGGAGAACGTTTCGGCGAGTTCTTAAAGG\nCTAGAGACGTGGGTATTGAGGACTCCGACAAGCCGGTGGTTTGGACGGGAGAGAGATTTGCCACATACGA\nCTCAGTTGATAAGGCAGATCTTTACTACGTAGGAAAAGTAACTCTGCCCTCAGGCGAGACCGTCACGGTG\nAAGACGGCGTTTATGATTGTGCGCGACGAGGCGTTTAGCAAATCTTTTGAAGACTGGCTGGCAATAGCAA\nGTCCCTATGAGCGTAACACGCCGGAATTCGCCGATTATGTGAAGAAAATAGAACAAATGGCAAAAGACTT\nCGCTGATGCCGCGCCTAAAGCGGCCACCACCCTGCATAGAGGCGTTGGCATGCATCCAAACGGCGAGTAT\nATAGTTTGGGCATATAGGACAATTGACACTCTCGTTGGCAATTTCCACAGAATGGGCGGTTTGCTTGCGC\nGCGCCGCACATACTGCATATGAAAACTACGTCTATAACGTCGGAAGGTCTGGCTTCGGCGAACCGGTGAG\nGTGGGGCCCGCCAATAGATAGACATAGATATGCCTATGAAAACACATTGGAATACTGGCTGAGGGTGAAA\nAAGGCGCTTAAAGAGGGCAAGTCCTGGGATGAGGCGGTAAAGGCGGCGTTTCCGACAAAGAGGCCTTGGT\nATCCACACACGCCAGAGGAGAGCTACACAGAGATATTTGCAGGTATAGCGGAGGGCTACCCGTATAGAAT\nAGGCGCCTTAATATTGTTCTATGCCAATCCTGTGCTGGCGACTAATTACGGCGTTAAATTTATAGAGGTG\nTTAAAAGACCCCGCCAAGCTTCCGCTGTTTATAGTTATAACTACAACTATAAACGAGACTGCGTTGTACG\nCCGACTATATTGTCCCAGACACAACTTATCTCGAGACGGGAACTATGGGGATTCAATACCTATACGCCAC\nGAGCGGGAGTGTTACTCTGGCAGAGAGTTGGCGTTCTCCTGTAATTATGCCGTTAACACAACGGATAAGC\nGACTGTCCCAATGGCCACCCGAGATATGCGAGCTTCTGGGAGTTCTTTATTGACACGGCTAAGGCTCTCG\nGCATGCCGGGACACGGCGATAAGGCCATACCGGGCGTAAAGGGCAAGAAATATGAAGGAAAGTGGTTCTC\nTATGCACTGTGAGTGGGAGTATATACTTAGGGTTTTCGCCAACGCTGCACTTGACGCAAAAGACAAGGGC\nTTAATACCCGAAGACGTCCCAGAGGAGGAGGTAAAGTTCGTAGAGGAGAATTACCCAATTGCCCAGTTTA\nGGGACATACTTCCGCCAGACGAGTGGAAGTACGTGGCTTACGGCCTCGCGCGCGGTGGAGTCTTTACTAA\nATATGAGGAGTCTTTCGACGAGCGCGGCATTTCTAAGAGAAGGGTACCGGGAAGGGGCACGCTGTATTTA\nTGGAGCGAAGAGGTGGCAAAGACTCGTAACAACGTGACTGGCGAGAAATTCTGGGGTGGGCCGAAGTACT\nTCCCCATCGCCACATACGCGCCTGCGGTGCCGGCCTTCCAAAAGGCTGATGAGTGGCTACACGGCACGCC\nGCTCCGACAGCTCTACCCAGAGAAAGAGTGGCCGTTTATACTAATACTCTATACAGGGCCTTTGTATACA\nAAACACAGGAGCCAGTTTTACTACTGGATTAAACAAGTAGTGCCGGAGAACTTTGTATTGATCAACCCAG\nAGGACGCCGCCAAGCTAGGCGTTGAGACAGGCGACGTAATTAAGGTAGAGACTCCAGTAGGCGCTTTCGA\nGGCGCCTGCCGTTGTCGAGCCAGCCGTAGCCCCTGGAGTGATCATGGTGCCATACGGCATGGGTAGGTGG\nGCAGACACCGTAGTCGTAAAGCCAAAATACTTTGAGCTAAAAGACGCAAGAGCCAAGTCGCTAATAGATG\nAACTGCCAGACAAAGTGGAAATACCTGAAGACGCCGTAAATCCAGTGAAGCATTTGCCAGATGTAGTTAA\nGAAGCTGTTATTCACTAAGAGCCCGGCGGAGTATTATGAAAAAGGGCTAGCCGTTGACAAGTGGAGATTC\nAACGGCGTCACTCCCAACGTCGCCGAGATGGCTGATCCCTCGCTCGGCGGCTGGCCTCTGCTCAGCTGGT\nTAGGAGCAGCACAGGCATATTTCGATACTCCAGCGAGAATCGTCAAGACAGGTCAAAGACACAAGTTTGA\nAGTCCCGTACATAGTCTGGTAA".data

/-- Table `self.example_sequences`, in insertion order. -/
def exampleSequences : List (Txt × Txt) :=
  [("test_dna".data, testDna),
   ("brca1_fragment".data, "ATGGATTTATCTGCTCTTCGCGTTGAAGAAGTACAAAATGTCA".data),
   ("p53_fragment".data, "ATGGAGGAGCCGCAGTCAGATCCTAGCGTCGAGCCCCCTCTGA".data)]

/-- Loop over `self.example_sequences.items()` (lines 162-165): first key
containing the lowercased gene name as a substring wins. -/
def lookupExample (gene : Txt) : Option Txt :=
  (exampleSequences.find? (fun kv =>
    containsSub (gene.map Char.toLower) (kv.1.map Char.toLower))).map (fun kv => kv.2)

/-- Gene-name step of the sequence resolution (lines 153-165): when the
current candidate is falsy and a gene name is present, try the NCBI fetch,
falling back to the example table; otherwise keep the candidate. -/
def resolveStep3 (fetch : Txt → Option Txt) (parsed : ParsedIntent) (s1 : Option Txt) : Option Txt :=
  if truthy s1 then s1
  else
    match parsed.gene_name with
    | none => s1
    | some g =>
      if g.isEmpty then s1
      else
        let fetched := fetch g
        if truthy fetched then fetched
        else
          match lookupExample g with
          | some e => some e
          | none => s1

/-- Direct-fallback step of the sequence resolution (lines 167-171): when
the candidate is still falsy, the first long `[ATCG]` run of the uppercased
query. -/
def resolveStep4 (q : Txt) (s2 : Option Txt) : Option Txt :=
  if truthy s2 then s2
  else
    match firstRun10 q with
    | some r => some r
    | none => s2

/-- Sequence resolution of `process_query` (lines 140, 150-171), applied to
the already-normalized query: extractor result, else parsed sequence, then
the gene-name step, then the direct fallback.  The result is the Python
variable `sequence`, which may still be falsy (`none`, or an empty parsed
string). -/
def resolveSequence (fetch : Txt → Option Txt) (q : Txt) (parsed : ParsedIntent) : Option Txt :=
  let seqs := extract_sequences_from_text q
  let s1 := match seqs with
    | s :: _ => some s
    | [] => parsed.sequence
  resolveStep4 q (resolveStep3 fetch parsed s1)

/-- Error raised by the Python runtime in our model. -/
inductive PyErr where
  | typeError (msg : Txt)
deriving DecidableEq

/-- Call-site error message for an unexpected keyword argument. -/
def unexpectedKwMsg (kw : Txt) : Txt :=
  "find_pattern() got an unexpected keyword argument ".data ++ kw

/-- Keyword parameters accepted by `EMBOSSWrapper.find_pattern`
(`emboss_wrapper.py` line 144: `def find_pattern(self, sequence, pattern)`). -/
def findPatternParams : List Txt := ["sequence".data, "pattern".data]

/-- Abstract token for the dictionary built by `BioTools.gc_content`; its
contents come from the external BioPython library (floating point) and are
not modelled. -/
structure GcData where
  token : Nat
deriving DecidableEq

/-- Value stored under `result` in the returned dictionary. -/
inductive ToolOut where
  | str (s : Txt)
  | gcDict (d : GcData)
deriving DecidableEq

/-- External collaborators of the routing core: the EMBOSS subprocess
calls of `emboss_wrapper.py` (each returns output text and never raises,
per `run_emboss_tool`), the NCBI fetch of `bio_tools.py` (returns `none`
on any failure), the BioPython GC computation, and the language model
(`none` models any failure or a response without a JSON object, which
triggers the `simple_parse` fallback). -/
structure Env where
  translate : Txt → Txt
  reverse_complement : Txt → Txt
  find_orfs : Txt → Txt
  fuzznuc : Txt → Txt → Txt
  sixframe : Txt → Txt
  gc_content : Txt → GcData
  fetch_sequence : Txt → Option Txt
  llm : Txt → Option ParsedIntent

/-- Python call `self.emboss.find_pattern(sequence, pattern, mismatch=mm)`
checked against the signature of `find_pattern`: any keyword argument
outside the parameter list raises `TypeError` before the wrapper runs. -/
def callFindPattern (env : Env) (sequence patt : Txt) (kwargs : List (Txt × Int)) :
    Except PyErr Txt :=
  match kwargs.find? (fun kv => !(findPatternParams.contains kv.1)) with
  | some kv => .error (.typeError (unexpectedKwMsg kv.1))
  | none => .ok (env.fuzznuc sequence patt)

/-- Embedding of `LocalLLMParser.parse_query` (lines 27-74): the model
response (when the call succeeds and contains a JSON object) or the
`simple_parse` fallback on the same (masked) input. -/
def parse_query (env : Env) (userQuery : Txt) : ParsedIntent :=
  match env.llm userQuery with
  | some parsed => parsed
  | none => simple_parse userQuery

/-- Error message of the no-sequence failure result. -/
def noSequenceMsg : Txt := "No sequence found. Please provide a DNA sequence or gene name.".data

/-- Python `f"Unknown tool: {tool}"` where `tool` is an optional string. -/
def unknownToolMsg (tool : Option Txt) : Txt :=
  "Unknown tool: ".data ++ (match tool with | some t => t | none => "None".data)

/-- Result dictionary of `process_query`: `failure e p` stands for
`{"success": False, "error": e, "parsed": p}` and `success t s r p` for
`{"success": True, "tool": t, "sequence": s, "result": r, "parsed": p}`. -/
inductive QueryResult where
  | failure (error : Txt) (parsed : ParsedIntent)
  | success (tool : Option Txt) (sequence : Txt) (result : ToolOut) (parsed : ParsedIntent)
deriving DecidableEq

/-- Echoed sequence, truncated at 50 characters plus ellipsis (lines
227-231). -/
def truncate50 (s : Txt) : Txt :=
  if 50 < s.length then s.take 50 ++ "...".data else s

/-- List of the four common enzymes scanned by `restriction_sites`
(insertion order of the Python dict). -/
def restrictionTable : List (Txt × Txt) :=
  [("EcoRI".data, "GAATTC".data),
   ("NotI".data, "GCGGCCGC".data),
   ("XbaI".data, "TCTAGA".data),
   ("BamHI".data, "GGATCC".data)]

/-- Python `seq.find(motif, start)`: the smallest index at or after `start`
where `motif` occurs, `none` standing for the -1 of a failed search.  The
index is bundled with its bounds so that the collection loop below can be
shown terminating. -/
def strFind (seq motif : Txt) (start : Nat) :
    Option {i : Nat // start ≤ i ∧ i ≤ seq.length} :=
  if h1 : seq.length < start then none
  else if motif.isPrefixOf (seq.drop start) then some ⟨start, le_refl _, by omega⟩
  else (strFind seq motif (start + 1)).map (fun x => ⟨x.1, by have := x.2; omega⟩)
termination_by seq.length + 1 - start

/-- While-loop of `restriction_sites` (lines 163-171): find the next
occurrence from `start`, record it, continue from one past its start, so
overlapping occurrences are found. -/
def findAllOcc (seq motif : Txt) (start : Nat) : List Nat :=
  match strFind seq motif start with
  | none => []
  | some i => i.1 :: findAllOcc seq motif (i.1 + 1)
termination_by seq.length + 1 - start
decreasing_by
  have := i.2
  omega

/-- Hit line `f"{name} ({motif}) at position {i + 1}"`. -/
def siteLine (name motif : Txt) (i : Nat) : Txt :=
  name ++ " (".data ++ motif ++ ") at position ".data ++ Nat.toDigits 10 (i + 1)

/-- Fixed no-hit message of `restriction_sites`. -/
def noSitesMsg : Txt := "No EcoRI/NotI/XbaI/BamHI sites found in the given sequence.".data

/-- Uppercased, newline-stripped sequence (`sequence.upper().replace("\n", "")`). -/
def normSeq (sequence : Txt) : Txt := (sequence.map Char.toUpper).filter (fun c => c ≠ '\n')

/-- Hit list of `restriction_sites`, in enzyme order. -/
def restrictionHits (seq : Txt) : List Txt :=
  restrictionTable.flatMap (fun nm => (findAllOcc seq nm.2 0).map (siteLine nm.1 nm.2))

/-- Python `"\n".join(lines)`. -/
def joinLines : List Txt → Txt
  | [] => []
  | [x] => x
  | x :: xs => x ++ '\n' :: joinLines xs

/-- Embedding of `EMBOSSWrapper.restriction_sites` (lines 148-176). -/
def restriction_sites (sequence : Txt) : Txt :=
  let seq := normSeq sequence
  let hits := restrictionHits seq
  if hits.isEmpty then noSitesMsg else joinLines hits

/-- Known tool names of the dispatch chain (lines 184-223). -/
def knownTools : List Txt :=
  ["translate".data, "reverse".data, "find_orfs".data, "pattern".data,
   "restriction".data, "gc_content".data, "sixframe".data]

/-- Dispatch section of `process_query` (lines 180-239) for an
already-resolved truthy sequence. -/
def dispatchTool (env : Env) (query : Txt) (parsed : ParsedIntent) (sequence : Txt) :
    Except PyErr ToolOut :=
  let t := parsed.tool
  if t = some "translate".data then .ok (.str (env.translate sequence))
  else if t = some "reverse".data then .ok (.str (env.reverse_complement sequence))
  else if t = some "find_orfs".data then .ok (.str (env.find_orfs sequence))
  else if t = some "pattern".data then
    let patt := resolvePattern parsed query
    let mm := resolveMismatch parsed query
    match callFindPattern env sequence patt [("mismatch".data, mm)] with
    | .error e => .error e
    | .ok s => .ok (.str s)
  else if t = some "restriction".data then .ok (.str (restriction_sites sequence))
  else if t = some "gc_content".data then .ok (.gcDict (env.gc_content sequence))
  else if t = some "sixframe".data then .ok (.str (env.sixframe sequence))
  else .ok (.str (unknownToolMsg t))

/-- Body of `process_query` after normalization and parsing: resolve the
sequence, return the failure dictionary when it is falsy, otherwise run the
selected tool and build the success dictionary. -/
def processQueryParsed (env : Env) (q : Txt) (parsed : ParsedIntent) :
    Except PyErr QueryResult :=
  match resolveSequence env.fetch_sequence q parsed with
  | none => .ok (.failure noSequenceMsg parsed)
  | some sequence =>
    if sequence.isEmpty then .ok (.failure noSequenceMsg parsed)
    else
      match dispatchTool env q parsed sequence with
      | .error e => .error e
      | .ok result => .ok (.success parsed.tool (truncate50 sequence) result parsed)

/-- Embedding of `BioQueryLocal.process_query` (lines 132-239): normalize
the query, mask it for the language model, parse, then resolve and
dispatch. -/
def process_query (env : Env) (q0 : Txt) : Except PyErr QueryResult :=
  let q := normalizeQuery q0
  let masked := mask_text_for_llm q
  let parsed := parse_query env masked
  processQueryParsed env q parsed

/-- Recognition of the tool value by the dispatch chain. -/
def toolRecognized (t : Option Txt) : Bool :=
  match t with
  | some x => knownTools.contains x
  | none => false

/-- Concrete environment used to evaluate the embedding at concrete
inputs: the language model is unreachable (forcing the `simple_parse`
fallback, as when Ollama is not running) and the NCBI fetch always fails. -/
def trivEnv : Env :=
  { translate := fun _ => []
    reverse_complement := fun _ => []
    find_orfs := fun _ => []
    fuzznuc := fun _ _ => []
    sixframe := fun _ => []
    gc_content := fun _ => ⟨0⟩
    fetch_sequence := fun _ => none
    llm := fun _ => none }

/-- Gene-name step as worded by the specification: external fetch by gene
name, falling back on failure (no result, or an empty one) to the
case-insensitive substring match against the example table. -/
def geneFetchSpec (fetch : Txt → Option Txt) (g : Txt) : Option Txt :=
  match fetch g with
  | some f => if f.isEmpty then lookupExample g else some f
  | none => lookupExample g

/-- Sequence resolution as worded by the claim, first success winning:
extractor first (the specified extractor includes the `>`-normalization as
its first step), then the parsed sequence field, then the gene-name fetch
with table fallback, then the first long `[ATCG]` run of the uppercased
raw query, else nothing. -/
def resolveSequenceSpec (fetch : Txt → Option Txt) (q0 : Txt) (parsed : ParsedIntent) :
    Option Txt :=
  match extract_sequences_from_text (normalizeQuery q0) with
  | s :: _ => some s
  | [] =>
    if truthy parsed.sequence then parsed.sequence
    else
      match parsed.gene_name with
      | some g =>
        if g.isEmpty then firstRun10 q0
        else
          match geneFetchSpec fetch g with
          | some s => some s
          | none => firstRun10 q0
      | none => firstRun10 q0

/-- Ordered keyword table of the fallback classifier, as worded by the
claim. -/
def keywordTable : List (List Txt × Txt) :=
  [(["translate".data], "translate".data),
   (["reverse".data, "complement".data], "reverse".data),
   (["orf".data, "reading frame".data], "find_orfs".data),
   (["pattern".data, "motif".data], "pattern".data),
   (["restriction".data, "enzyme".data], "restriction".data),
   (["gc".data], "gc_content".data)]

/-- Claim-side classifier: first entry of the ordered table one of whose
keywords occurs (case-insensitively) in the query wins; no match leaves
the tool `none`. -/
def classifySpec (query : Txt) : Option Txt :=
  (keywordTable.find? (fun e => e.1.any (fun k => containsSub k (query.map Char.toLower)))).map
    (fun e => e.2)

/-- Stripped, non-blank lines of a text (what the FASTA pass acts on). -/
def nbLines (t : Txt) : List Txt := ((splitNl t).map pyStrip).filter (fun l => !l.isEmpty)

/-- FASTA pass restated over pre-stripped, non-blank lines. -/
def fastaCore : List Txt → Bool → Txt → List Txt → List Txt
  | [], _, cur, seqs => if cur.isEmpty then seqs else seqs ++ [cur]
  | l :: ls, inRec, cur, seqs =>
    if l.head? = some '>' then
      fastaCore ls true [] (if cur.isEmpty then seqs else seqs ++ [cur])
    else if inRec then
      let cleaned := cleanSeqLine l
      fastaCore ls inRec (if cleaned.isEmpty then cur else cur ++ cleaned) seqs
    else fastaCore ls inRec cur seqs

/-- Shape hypothesis of claim C3: the text is exactly one FASTA record,
one header line followed by body lines. -/
def singleFastaB (t : Txt) : Bool :=
  match nbLines t with
  | h :: body => h.head? == some '>' && body.all (fun l => !(l.head? == some '>'))
  | [] => false

/-- Cleaned concatenation of the body lines of the single record. -/
def fastaBody (t : Txt) : Txt :=
  match nbLines t with
  | _ :: body => (body.map cleanSeqLine).flatten
  | [] => []

/-- Does the text contain a FASTA header line (a line whose stripped form
starts with `>`)? -/
def hasHeaderB (t : Txt) : Bool := (nbLines t).any (fun l => l.head? == some '>')

/-- Checker for the amended claim C8: every `>` that is immediately
followed by a non-whitespace character sits at the start of the text or
right after a newline.  `prev` is the preceding character. -/
def gtAligned : Option Char → Txt → Bool
  | _, [] => true
  | prev, c :: cs =>
    if c = '>' ∧ (match cs with | d :: _ => isPySpace d | [] => true) = false ∧
        ¬(prev = none ∨ prev = some '\n') then false
    else gtAligned (some c) cs

/-- Checker for claim C8 as stated: every `>` sits at the start of the
text or right after a newline. -/
def gtAlignedAll : Option Char → Txt → Bool
  | _, [] => true
  | prev, c :: cs =>
    if c = '>' ∧ ¬(prev = none ∨ prev = some '\n') then false
    else gtAlignedAll (some c) cs

/-- Occurrence positions of a motif, as worded by claim C10: every index
at which the motif occurs, overlapping occurrences included, ascending. -/
def specOcc (seq motif : Txt) : List Nat :=
  (List.range (seq.length + 1)).filter (fun i => motif.isPrefixOf (seq.drop i))

/-- Claim-side hit list: one line per occurrence, grouped in the fixed
enzyme order of the table. -/
def restrictionHitsSpec (seq : Txt) : List Txt :=
  restrictionTable.flatMap (fun nm => (specOcc seq nm.2).map (siteLine nm.1 nm.2))

/-- Claim-side restriction report. -/
def restriction_sitesSpec (sequence : Txt) : Txt :=
  let hits := restrictionHitsSpec (normSeq sequence)
  if hits.isEmpty then noSitesMsg else joinLines hits

/-- Does no motif of the table occur in the sequence? -/
def noMotifOccursB (sequence : Txt) : Bool :=
  restrictionTable.all (fun nm => (specOcc (normSeq sequence) nm.2).isEmpty)

/-- Every character of a run is in the (case-insensitive) IUPAC class. -/
def allIupac (r : Txt) : Prop := ∀ c ∈ r, isIupacLetter c = true

/-- Decidability of `allIupac`, so that witnesses can be checked by
evaluation. -/
instance (r : Txt) : Decidable (allIupac r) := by
  unfold allIupac
  infer_instance

/-- No all-IUPAC infix of `l` is longer than `n`. -/
def alphaBound (n : Nat) (l : Txt) : Prop :=
  ∀ r : Txt, r <:+: l → allIupac r → r.length ≤ n

/-- Query exercising the pattern dispatch path of `process_query`. -/
def c1query : Txt := "Find motif pattern GATTACA with mismatches=1 in ACGTACGTACGTACGTACGT".data

/-- Query whose sequence is resolved by the extractor (step 1). -/
def c2query : Txt := "Translate ATGGCGAATTACGTAGCTAA".data

/-- Intent with no fields set. -/
def emptyIntent : ParsedIntent :=
  { tool := none, sequence := none, gene_name := none, parameters := IntentParams.empty }

/-- Single-record FASTA text whose cleaned body is 20 characters long. -/
def c3good : Txt := ">example\nACGTACGTAC\nGGGTTTAAAC".data

/-- Single-record FASTA text whose cleaned body is 7 characters long. -/
def c3bad : Txt := ">h\nACGTACG".data

/-- Text with a header line whose record has no sequence lines, but with a
bare DNA run before the header. -/
def c4bad : Txt := "ACGTACGTACGTACGT\n>header".data

/-- Text with no header line and one bare DNA run. -/
def c4w : Txt := "just ACGTACGTACGTACGT here".data

/-- Query carrying an explicit mismatch count. -/
def c6query : Txt := "find pattern ATG with mismatches=2 in ACGTACGTACGT".data

/-- Query for the second mismatch regex. -/
def c6wq : Txt := "find pattern ATG allowing up to 3 mismatches in ACGTACGTACGT".data

/-- Run of 25 `A` characters. -/
def c7run : Txt := "AAAAAAAAAAAAAAAAAAAAAAAAA".data

/-- Text carrying the 25-character run outside any header line. -/
def c7good : Txt := "compute gc of AAAAAAAAAAAAAAAAAAAAAAAAA please".data

/-- Text whose only 25-character run sits on a FASTA header line. -/
def c7bad : Txt := ">AAAAAAAAAAAAAAAAAAAAAAAAA".data

/-- Text with a `>` that is neither preceded by a newline nor followed by
a non-whitespace character. -/
def c8bad : Txt := "a> b".data

/-- Intent naming an unknown tool and carrying a sequence. -/
def c9parsed : ParsedIntent :=
  { tool := some "foo".data, sequence := some "ACGTACGTACGT".data, gene_name := none,
    parameters := IntentParams.empty }

/-- Decomposition of a prefix of an appended list. -/
theorem prefixAppendCases {α} (r a b : List α) (h : r <+: a ++ b) :
    r <+: a ∨ ∃ c, r = a ++ c ∧ c <+: b := by
  induction a generalizing r with
  | nil => exact Or.inr ⟨r, rfl, h⟩
  | cons x a' ih =>
    match r with
    | [] => exact Or.inl List.nil_prefix
    | y :: r' =>
      rw [List.cons_append, List.cons_prefix_cons] at h
      obtain ⟨rfl, h'⟩ := h
      rcases ih r' h' with h2 | ⟨c, rfl, hc⟩
      · exact Or.inl (List.cons_prefix_cons.mpr ⟨rfl, h2⟩)
      · exact Or.inr ⟨c, by simp, hc⟩

/-- Decomposition of an infix of an appended list. -/
theorem infixAppendCases {α} (r a b : List α) (h : r <:+: a ++ b) :
    r <:+: a ∨ r <:+: b ∨
      ∃ r1 r2, r = r1 ++ r2 ∧ r1 ≠ [] ∧ r2 ≠ [] ∧ r1 <:+ a ∧ r2 <+: b := by
  induction a generalizing r with
  | nil => simpa using Or.inr (Or.inl (by simpa using h))
  | cons x a' ih =>
    rw [List.cons_append] at h
    rcases List.infix_cons_iff.mp h with hp | hi
    · match r with
      | [] => exact Or.inl (List.nil_infix)
      | y :: r' =>
        rw [List.cons_prefix_cons] at hp
        obtain ⟨rfl, h'⟩ := hp
        rcases prefixAppendCases r' a' b h' with h2 | ⟨c, rfl, hc⟩
        · exact Or.inl (List.cons_prefix_cons.mpr ⟨rfl, h2⟩).isInfix
        · match c with
          | [] => exact Or.inl (by simp)
          | z :: c' =>
            refine Or.inr (Or.inr ⟨y :: a', z :: c', by simp, by simp, by simp, ?_, hc⟩)
            exact List.suffix_refl _
    · rcases ih r hi with h2 | h2 | ⟨r1, r2, rfl, h3, h4, h5, h6⟩
      · exact Or.inl (List.infix_cons h2)
      · exact Or.inr (Or.inl h2)
      · exact Or.inr (Or.inr ⟨r1, r2, rfl, h3, h4, h5.trans (List.suffix_cons x a'), h6⟩)

/-- All-IUPAC infix of a list split by a non-IUPAC character lies on one
side of the separator. -/
theorem iupacInfixSep (r a b : Txt) (c : Char) (hall : allIupac r)
    (hc : isIupacLetter c = false) (h : r <:+: a ++ c :: b) : r <:+: a ∨ r <:+: b := by
  rcases infixAppendCases r a (c :: b) h with h1 | h1 | ⟨r1, r2, rfl, hn1, hn2, hs, hp⟩
  · exact Or.inl h1
  · rcases List.infix_cons_iff.mp h1 with h2 | h2
    · match r with
      | [] => exact Or.inl List.nil_infix
      | y :: r' =>
        rw [List.cons_prefix_cons] at h2
        obtain ⟨rfl, -⟩ := h2
        have := hall y (by simp)
        rw [this] at hc
        simp at hc
    · exact Or.inr h2
  · exfalso
    match r2 with
    | [] => exact hn2 rfl
    | z :: r2' =>
      rw [List.cons_prefix_cons] at hp
      obtain ⟨rfl, -⟩ := hp
      have := hall z (by simp)
      rw [this] at hc
      simp at hc

/-- Infix of the right part of an append. -/
theorem infixAppendRight {α} (l a b : List α) (h : l <:+: b) : l <:+: a ++ b := by
  obtain ⟨s, t, hst⟩ := h
  exact ⟨a ++ s, t, by rw [← hst]; simp⟩

/-- Nothing is an infix of the empty list except the empty list. -/
theorem alphaBound_nil (n : Nat) : alphaBound n ([] : Txt) := by
  intro r hr _
  rw [List.infix_nil] at hr
  simp [hr]

/-- Any list bounds its own infixes by its length. -/
theorem alphaBound_of_length_le (n : Nat) (l : Txt) (h : l.length ≤ n) : alphaBound n l :=
  fun _ hr _ => hr.length_le.trans h

/-- Joining two bounded lists over a non-IUPAC separator keeps the bound. -/
theorem alphaBound_append_sep (n : Nat) (a b : Txt) (c : Char) (ha : alphaBound n a)
    (hb : alphaBound n b) (hc : isIupacLetter c = false) : alphaBound n (a ++ c :: b) := by
  intro r hr hall
  rcases iupacInfixSep r a b c hall hc hr with h | h
  · exact ha r h hall
  · exact hb r h hall

/-- Prepending a non-IUPAC character keeps the bound. -/
theorem alphaBound_cons (n : Nat) (b : Txt) (c : Char) (hc : isIupacLetter c = false)
    (hb : alphaBound n b) : alphaBound n (c :: b) := by
  have := alphaBound_append_sep n [] b c (alphaBound_nil n) hb hc
  simpa using this

/-- Prepending a short run and a non-IUPAC separator keeps the bound. -/
theorem alphaBound_run_prepend (n : Nat) (run b : Txt) (c : Char) (hrun : run.length ≤ n)
    (hc : isIupacLetter c = false) (hb : alphaBound n b) : alphaBound n (run ++ c :: b) :=
  alphaBound_append_sep n run b c (alphaBound_of_length_le n run hrun) hb hc

/-- The placeholder `[SEQUENCE]` contains no IUPAC run longer than 19. -/
theorem alphaBound_seqMask : alphaBound 19 seqMask := by
  have h0 : alphaBound 19 ([']'] : Txt) := alphaBound_cons 19 [] ']' (by decide) (alphaBound_nil 19)
  have h1 : alphaBound 19 ('E' :: [']'] : Txt) := alphaBound_cons 19 _ 'E' (by decide) h0
  have h2 : alphaBound 19 (['N', 'C'] ++ 'E' :: [']'] : Txt) :=
    alphaBound_run_prepend 19 ['N', 'C'] _ 'E' (by decide) (by decide) h0
  have h3 : alphaBound 19 ('E' :: (['N', 'C'] ++ 'E' :: [']']) : Txt) :=
    alphaBound_cons 19 _ 'E' (by decide) h2
  have h4 : alphaBound 19 (['U'] ++ 'E' :: (['N', 'C'] ++ 'E' :: [']']) : Txt) :=
    alphaBound_run_prepend 19 ['U'] _ 'E' (by decide) (by decide) h2
  have h5 : alphaBound 19 ('Q' :: (['U'] ++ 'E' :: (['N', 'C'] ++ 'E' :: [']'])) : Txt) :=
    alphaBound_cons 19 _ 'Q' (by decide) h4
  have h6 : alphaBound 19 ('E' :: ('Q' :: (['U'] ++ 'E' :: (['N', 'C'] ++ 'E' :: [']']))) : Txt) :=
    alphaBound_cons 19 _ 'E' (by decide) h5
  have h7 : alphaBound 19
      (['S'] ++ 'E' :: ('Q' :: (['U'] ++ 'E' :: (['N', 'C'] ++ 'E' :: [']']))) : Txt) :=
    alphaBound_run_prepend 19 ['S'] _ 'E' (by decide) (by decide) h5
  have h8 : alphaBound 19
      ('[' :: (['S'] ++ 'E' :: ('Q' :: (['U'] ++ 'E' :: (['N', 'C'] ++ 'E' :: [']'])))) : Txt) :=
    alphaBound_cons 19 _ '[' (by decide) h7
  exact h8

/-- A flushed run contains no IUPAC run longer than 19: it is either the
placeholder or a kept run of length at most 19. -/
theorem alphaBound_flushRun (acc : Txt) : alphaBound 19 (flushRun acc) := by
  unfold flushRun
  split
  · exact alphaBound_seqMask
  · exact alphaBound_of_length_le 19 acc.reverse (by simp; omega)

/-- The run-masked text contains no IUPAC run longer than 19. -/
theorem alphaBound_maskRunsAux (cs : Txt) : ∀ acc : Txt, alphaBound 19 (maskRunsAux acc cs) := by
  induction cs with
  | nil => intro acc; exact alphaBound_flushRun acc
  | cons c cs ih =>
    intro acc
    rw [maskRunsAux]
    split
    · exact ih (c :: acc)
    · exact alphaBound_append_sep 19 (flushRun acc) (maskRunsAux [] cs) c
        (alphaBound_flushRun acc) (ih []) (by rename_i hc; simpa using hc)

/-- A 25-character IUPAC run surviving into the run-masking stage forces
the placeholder into the output. -/
theorem seqMask_of_long_run (cs : Txt) : ∀ (acc r : Txt), r.length = 25 → allIupac r →
    r <:+: (acc.reverse ++ cs) → seqMask <:+: maskRunsAux acc cs := by
  induction cs with
  | nil =>
    intro acc r hlen hall hr
    rw [List.append_nil] at hr
    have h25 : 25 ≤ acc.length := by
      have := hr.length_le
      simp at this
      omega
    rw [maskRunsAux, flushRun, if_pos (by omega)]
  | cons c cs ih =>
    intro acc r hlen hall hr
    rw [maskRunsAux]
    split
    · apply ih (c :: acc) r hlen hall
      have : acc.reverse ++ c :: cs = (c :: acc).reverse ++ cs := by simp
      rw [← this]
      exact hr
    · rename_i hc
      have hc' : isIupacLetter c = false := by simpa using hc
      rcases iupacInfixSep r acc.reverse cs c hall hc' hr with h | h
      · have h25 : 25 ≤ acc.length := by
          have := h.length_le
          simp at this
          omega
        rw [flushRun, if_pos (by omega)]
        exact (List.prefix_append seqMask _).isInfix
      · have := ih [] r hlen hall (by simpa using h)
        exact infixAppendRight _ _ _ (List.infix_cons this)

/-- Step equation of the normalization scanner. -/
theorem normalizeGtAux_cons (b : Bool) (c : Char) (cs : Txt) :
    normalizeGtAux b (c :: cs) =
      if c = '>' ∧ b = false ∧ (match cs with | d :: _ => isPySpace d | [] => true) = false then
        '\n' :: '>' :: normalizeGtAux false cs
      else c :: normalizeGtAux (c = '\n') cs := rfl

/-- Step equation of the amended-claim checker. -/
theorem gtAligned_cons (prev : Option Char) (c : Char) (cs : Txt) :
    gtAligned prev (c :: cs) =
      if c = '>' ∧ (match cs with | d :: _ => isPySpace d | [] => true) = false ∧
          ¬(prev = none ∨ prev = some '\n') then false
      else gtAligned (some c) cs := rfl

/-- Normalization output of a text whose first character is not `>`. -/
theorem normalizeGtAux_cons_ne (b : Bool) (d : Char) (cs : Txt) (hd : d ≠ '>') :
    normalizeGtAux b (d :: cs) = d :: normalizeGtAux (d = '\n') cs := by
  rw [normalizeGtAux_cons, if_neg]
  intro hcon
  exact hd hcon.1

/-- Invariant of the normalization: in the output, every `>` followed by a
non-whitespace character sits at the start or right after a newline. -/
theorem norm_gtAligned (l : Txt) : ∀ pc : Option Char,
    gtAligned pc (normalizeGtAux (pc == some '\n') l) = true := by
  induction l with
  | nil => intro pc; rfl
  | cons c cs ih =>
    intro pc
    rw [normalizeGtAux_cons]
    split
    case isTrue h =>
      obtain ⟨hc, hb, hnext⟩ := h
      subst hc
      rw [gtAligned_cons, if_neg (by simp)]
      rw [gtAligned_cons, if_neg (by simp)]
      have := ih (some '>')
      simpa using this
    case isFalse h =>
      rw [gtAligned_cons]
      split
      case isTrue h2 =>
        exfalso
        obtain ⟨hc, hnext, hpc⟩ := h2
        subst hc
        have hbf : (pc == some '\n') = false := by
          cases pc with
          | none => rfl
          | some x =>
            have hx : x ≠ '\n' := fun hx => hpc (Or.inr (by rw [hx]))
            exact beq_eq_false_iff_ne.mpr (by simpa using hx)
        cases cs with
        | nil => simp [normalizeGtAux] at hnext
        | cons d cs' =>
          have hd : isPySpace d = true := by
            by_contra hd'
            exact h ⟨rfl, hbf, by simp [Bool.eq_false_iff.mpr hd']⟩
          have hd2 : d ≠ '>' := by
            intro e
            rw [e] at hd
            simp [isPySpace] at hd
          rw [normalizeGtAux_cons_ne _ d cs' hd2] at hnext
          simp [hd] at hnext
      case isFalse h2 =>
        have := ih (some c)
        simpa using this

/-- C1: the claim states that `process_query` never raises and always
returns a result structure, specifically including the pattern dispatch
path.  The code violates this: `find_pattern` accepts only `sequence` and
`pattern`, so the call `find_pattern(sequence, pattern, mismatch=mm)` on
the pattern path raises `TypeError`.  This theorem evaluates the embedded
`process_query` at a concrete pattern query and shows the raised error. -/
theorem claim_c1_pattern_fault :
    process_query trivEnv c1query = .error (.typeError (unexpectedKwMsg "mismatch".data)) := rfl

/-- C6: the mismatch count is resolved from the LLM-provided parameter
(coerced, defaulting to 0 on coercion failure) when present, otherwise
from the two regexes over the raw query with default 0; in particular a
query containing `mismatches=2` with no LLM-provided parameter resolves
mismatch 2. -/
theorem claim_c6_mismatch_resolution :
    (∀ (parsed : ParsedIntent) (q : Txt),
      (parsed.parameters.mismatch = none →
        resolveMismatch parsed q =
          (match searchMismatch1 q with
           | some n => (n : Int)
           | none =>
             match searchUpTo q with
             | some n => (n : Int)
             | none => 0)) ∧
      (∀ v, parsed.parameters.mismatch = some v →
        resolveMismatch parsed q = (match v with | some n => n | none => 0)))
    ∧ resolveMismatch emptyIntent c6query = 2 := by
  refine ⟨fun parsed q => ⟨fun h => ?_, fun v h => ?_⟩, by decide⟩
  · unfold resolveMismatch
    rw [h]
  · unfold resolveMismatch
    rw [h]

/-- Witness for C6: the second regex path, evaluated on a concrete query
with the parameter absent. -/
theorem claim_c6_witness : resolveMismatch emptyIntent c6wq = 3 :=
  ((claim_c6_mismatch_resolution.1 emptyIntent c6wq).1 rfl).trans (by decide)

/-- C7 (amended): header lines are replaced first, and a 25-character
allowed-alphabet run that survives header masking forces the sequence
placeholder into the output while the run itself cannot survive. -/
theorem claim_c7_masking (t r : Txt) (hlen : r.length = 25) (hall : allIupac r)
    (hsurv : r <:+: maskHeaders t) :
    seqMask <:+: mask_text_for_llm t ∧ ¬ r <:+: mask_text_for_llm t := by
  constructor
  · exact seqMask_of_long_run (maskHeaders t) [] r hlen hall (by simpa using hsurv)
  · intro hcon
    have := alphaBound_maskRunsAux (maskHeaders t) [] r hcon hall
    omega

/-- Witness for C7: a 25-character run in prose survives header masking,
the placeholder appears and the run disappears. -/
theorem claim_c7_masking_witness :
    seqMask <:+: mask_text_for_llm c7good ∧ ¬ c7run <:+: mask_text_for_llm c7good :=
  claim_c7_masking c7good c7run (by decide) (by decide) (by decide)

/-- Counterexample for C7 as stated: a text whose only 25-character run
sits on a FASTA header line is masked to `>[HEADER]`, which contains no
sequence placeholder, refuting the claimed consequence for arbitrary
texts. -/
theorem claim_c7_counterexample :
    c7run.length = 25 ∧ allIupac c7run ∧ c7run <:+: c7bad ∧
      ¬ seqMask <:+: mask_text_for_llm c7bad := by
  refine ⟨by decide, by decide, by decide, by decide⟩

/-- C8 (amended): the normalization inserts a newline before a `>` only
when it is not already preceded by a newline AND is immediately followed
by a non-whitespace character; consequently every `>` with a
non-whitespace successor begins a line in the output. -/
theorem claim_c8_normalization (q : Txt) : gtAligned none (normalizeQuery q) = true := by
  have := norm_gtAligned q none
  simpa [normalizeQuery] using this

/-- Counterexample for C8 as stated: in `"a> b"` the `>` is not preceded
by a newline, yet no newline is inserted (the follower is a space), so not
every `>` begins a line in the output. -/
theorem claim_c8_counterexample :
    normalizeQuery c8bad = c8bad ∧ gtAlignedAll none (normalizeQuery c8bad) = false := by
  refine ⟨by decide, by decide⟩

/-- C9: with a resolved sequence and a tool value outside the dispatch
set, `process_query` returns a success result whose payload is the
`Unknown tool: ...` string; the unrecognized tool is not an error. -/
theorem claim_c9_unknown_tool (env : Env) (q : Txt) (parsed : ParsedIntent) (s : Txt)
    (hres : resolveSequence env.fetch_sequence q parsed = some s)
    (hne : s.isEmpty = false)
    (hun : toolRecognized parsed.tool = false) :
    processQueryParsed env q parsed =
      .ok (.success parsed.tool (truncate50 s) (.str (unknownToolMsg parsed.tool)) parsed) := by
  have hd : dispatchTool env q parsed s = .ok (.str (unknownToolMsg parsed.tool)) := by
    unfold dispatchTool
    cases htool : parsed.tool with
    | none => simp
    | some x =>
      rw [htool] at hun
      unfold toolRecognized at hun
      simp only [knownTools, List.contains_cons, List.contains_nil, Bool.or_eq_false_iff,
        beq_eq_false_iff_ne] at hun
      obtain ⟨h1, h2, h3, h4, h5, h6, h7, -⟩ := hun
      simp [h1, h2, h3, h4, h5, h6, h7]
  unfold processQueryParsed
  simp [hres, hne, hd]

/-- Witness for C9: intent naming the unknown tool `foo` with a parsed
sequence, evaluated in the concrete environment. -/
theorem claim_c9_witness :
    processQueryParsed trivEnv [] c9parsed =
      .ok (.success c9parsed.tool (truncate50 "ACGTACGTACGT".data)
        (.str (unknownToolMsg c9parsed.tool)) c9parsed) :=
  claim_c9_unknown_tool trivEnv [] c9parsed "ACGTACGTACGT".data (by decide) (by decide) (by decide)

/-- Step equation of the FASTA line loop. -/
theorem fastaLoop_cons (line : Txt) (rest : List Txt) (b : Bool) (cur : Txt) (seqs : List Txt) :
    fastaLoop (line :: rest) b cur seqs =
      (if (pyStrip line).isEmpty then fastaLoop rest b cur seqs
       else if (pyStrip line).head? = some '>' then
         fastaLoop rest true [] (if cur.isEmpty then seqs else seqs ++ [cur])
       else if b then
         fastaLoop rest b
           (if (cleanSeqLine (pyStrip line)).isEmpty then cur
            else cur ++ cleanSeqLine (pyStrip line)) seqs
       else fastaLoop rest b cur seqs) := rfl

/-- Step equation of the restated FASTA pass. -/
theorem fastaCore_cons (l : Txt) (ls : List Txt) (b : Bool) (cur : Txt) (seqs : List Txt) :
    fastaCore (l :: ls) b cur seqs =
      (if l.head? = some '>' then
         fastaCore ls true [] (if cur.isEmpty then seqs else seqs ++ [cur])
       else if b then
         fastaCore ls b (if (cleanSeqLine l).isEmpty then cur else cur ++ cleanSeqLine l) seqs
       else fastaCore ls b cur seqs) := rfl

/-- The FASTA pass over raw lines equals the restated pass over the
stripped, non-blank lines. -/
theorem fastaLoop_core (ls : List Txt) : ∀ (b : Bool) (cur : Txt) (seqs : List Txt),
    fastaLoop ls b cur seqs =
      fastaCore ((ls.map pyStrip).filter (fun l => !l.isEmpty)) b cur seqs := by
  induction ls with
  | nil => intro b cur seqs; rfl
  | cons l ls ih =>
    intro b cur seqs
    rw [fastaLoop_cons]
    by_cases he : (pyStrip l).isEmpty
    · have hskip : ((l :: ls).map pyStrip).filter (fun x => !x.isEmpty) =
          (ls.map pyStrip).filter (fun x => !x.isEmpty) := by
        simp [he]
      rw [if_pos he, hskip]
      exact ih b cur seqs
    · have hcons : ((l :: ls).map pyStrip).filter (fun x => !x.isEmpty) =
          pyStrip l :: (ls.map pyStrip).filter (fun x => !x.isEmpty) := by
        simp [he]
      rw [if_neg (by simpa using he), hcons, fastaCore_cons]
      by_cases hh : (pyStrip l).head? = some '>'
      · rw [if_pos hh, if_pos hh]
        exact ih _ _ _
      · rw [if_neg hh, if_neg hh]
        by_cases hb : b
        · rw [if_pos hb, if_pos hb]
          exact ih _ _ _
        · rw [if_neg hb, if_neg hb]
          exact ih _ _ _

/-- Accumulation of a record body: with no header line among the lines,
the restated pass appends the cleaned concatenation (when non-empty) as a
single record. -/
theorem fastaCore_body (body : List Txt) : ∀ (cur : Txt) (seqs : List Txt),
    (∀ l ∈ body, ¬(l.head? = some '>')) →
    fastaCore body true cur seqs =
      (if (cur ++ (body.map cleanSeqLine).flatten).isEmpty then seqs
       else seqs ++ [cur ++ (body.map cleanSeqLine).flatten]) := by
  induction body with
  | nil =>
    intro cur seqs _
    simp [fastaCore]
  | cons l ls ih =>
    intro cur seqs hb
    have hl : ¬(l.head? = some '>') := hb l (by simp)
    have hls : ∀ x ∈ ls, ¬(x.head? = some '>') := fun x hx => hb x (by simp [hx])
    rw [fastaCore_cons, if_neg hl, if_pos rfl]
    by_cases hc : (cleanSeqLine l).isEmpty
    · have hc' : cleanSeqLine l = [] := List.isEmpty_iff.mp hc
      rw [if_pos hc, ih cur seqs hls]
      simp [hc']
    · rw [if_neg hc, ih (cur ++ cleanSeqLine l) seqs hls]
      simp

/-- With no header line and the flag off, the restated pass only flushes
the carried record. -/
theorem fastaCore_noheader (ls : List Txt) : ∀ (cur : Txt) (seqs : List Txt),
    (∀ l ∈ ls, ¬(l.head? = some '>')) →
    fastaCore ls false cur seqs = (if cur.isEmpty then seqs else seqs ++ [cur]) := by
  induction ls with
  | nil => intro cur seqs _; rfl
  | cons l ls ih =>
    intro cur seqs hb
    have hl : ¬(l.head? = some '>') := hb l (by simp)
    rw [fastaCore_cons, if_neg hl, if_neg (by simp)]
    exact ih cur seqs (fun x hx => hb x (by simp [hx]))

/-- The FASTA pass acts on the stripped non-blank lines. -/
theorem fastaSeqs_core (t : Txt) : fastaSeqs t = fastaCore (nbLines t) false [] [] := by
  unfold fastaSeqs nbLines
  exact fastaLoop_core (splitNl t) false [] []

/-- C3 (amended): for a text that is exactly one FASTA record, the
extractor returns exactly the cleaned concatenation of the body lines,
provided that concatenation is at least 10 characters long (shorter
records are discarded by the final length filter). -/
theorem claim_c3_single_record (t : Txt) (h : singleFastaB t = true)
    (hlen : 10 ≤ (fastaBody t).length) :
    extract_sequences_from_text t = [fastaBody t] := by
  unfold singleFastaB at h
  cases hnb : nbLines t with
  | nil => rw [hnb] at h; simp at h
  | cons hd body =>
    rw [hnb] at h
    simp only [Bool.and_eq_true, beq_iff_eq, List.all_eq_true, Bool.not_eq_eq_eq_not,
      Bool.not_true, beq_eq_false_iff_ne] at h
    obtain ⟨hhd, hbody⟩ := h
    have hbody' : ∀ l ∈ body, ¬(l.head? = some '>') := fun l hl => hbody l hl
    have hfb : fastaBody t = (body.map cleanSeqLine).flatten := by
      unfold fastaBody
      rw [hnb]
    have hne : ((body.map cleanSeqLine).flatten).isEmpty = false := by
      rw [← hfb]
      cases hfbv : fastaBody t with
      | nil => rw [hfbv] at hlen; simp at hlen
      | cons a l => simp
    have hfs : fastaSeqs t = [(body.map cleanSeqLine).flatten] := by
      rw [fastaSeqs_core, hnb, fastaCore_cons, if_pos hhd]
      change fastaCore body true [] [] = _
      rw [fastaCore_body body [] [] hbody']
      simp [hne]
    unfold extract_sequences_from_text
    rw [hfs]
    rw [← hfb]
    simp [hlen]

/-- Witness for C3: a two-line record whose cleaned body has 20
characters. -/
theorem claim_c3_witness : extract_sequences_from_text c3good = ["ACGTACGTACGGGTTTAAAC".data] := by
  have := claim_c3_single_record c3good (by decide) (by decide)
  rw [this]
  decide

/-- Counterexample for C3 as stated: a single record whose non-empty body
cleans to 7 characters yields no sequence at all, not one. -/
theorem claim_c3_counterexample :
    singleFastaB c3bad = true ∧ fastaBody c3bad = "ACGTACG".data ∧
      extract_sequences_from_text c3bad = [] ∧
      extract_sequences_from_text c3bad ≠ [fastaBody c3bad] := by
  refine ⟨by decide, by decide, by decide, by decide⟩

/-- C4 (amended): the bare-run fallback is applied exactly when the FASTA
pass yields no sequences; in particular every text with no header line
takes the fallback, but so do texts whose header records contribute no
sequence characters. -/
theorem claim_c4_fallback (t : Txt) :
    extract_sequences_from_text t =
      (if (fastaSeqs t).isEmpty then (bareRuns t).map cleanSeqLine else fastaSeqs t).filter
        (fun s => 10 ≤ s.length)
    ∧ (hasHeaderB t = false → fastaSeqs t = []) := by
  constructor
  · rfl
  · intro hh
    have hall : ∀ l ∈ nbLines t, ¬(l.head? = some '>') := by
      unfold hasHeaderB at hh
      intro l hl hcon
      have h2 : ((nbLines t).any fun x => x.head? == some '>') = true :=
        List.any_eq_true.mpr ⟨l, hl, show (l.head? == some '>') = true by rw [hcon]; rfl⟩
      rw [h2] at hh
      simp at hh
    rw [fastaSeqs_core, fastaCore_noheader (nbLines t) [] [] hall]
    simp

/-- Witness for C4: a header-free text takes the fallback and returns its
bare run. -/
theorem claim_c4_witness :
    fastaSeqs c4w = [] ∧ extract_sequences_from_text c4w = ["ACGTACGTACGTACGT".data] :=
  ⟨(claim_c4_fallback c4w).2 (by decide), by decide⟩

/-- Counterexample for C4 as stated: this text contains a header line,
yet the FASTA pass yields nothing and the returned sequence comes from
bare-run matching, so bare-run matching is performed despite the header. -/
theorem claim_c4_counterexample :
    hasHeaderB c4bad = true ∧ fastaSeqs c4bad = [] ∧
      extract_sequences_from_text c4bad = ["ACGTACGTACGTACGT".data] ∧
      (bareRuns c4bad).map cleanSeqLine = ["ACGTACGTACGTACGT".data] := by
  refine ⟨by decide, by decide, by decide, by decide⟩

/-- C5: the fallback parser classifies by the ordered keyword table with
first match winning (no match leaves the tool empty), takes the sequence
from the first long `[ATCG]` run of the uppercased query, and sets
nothing else. -/
theorem claim_c5_keyword_classifier (q : Txt) :
    simple_parse q =
      { tool := classifySpec q, sequence := firstRun10 q, gene_name := none,
        parameters := IntentParams.empty } := by
  unfold simple_parse classifySpec keywordTable
  simp only [List.find?, List.any, Bool.or_false, Option.map]
  by_cases h1 : containsSub "translate".data (q.map Char.toLower) = true
  · simp [h1]
  by_cases h2 : containsSub "reverse".data (q.map Char.toLower) = true
  · simp [h1, h2]
  by_cases h3 : containsSub "complement".data (q.map Char.toLower) = true
  · simp [h1, h2, h3]
  by_cases h4 : containsSub "orf".data (q.map Char.toLower) = true
  · simp [h1, h2, h3, h4]
  by_cases h5 : containsSub "reading frame".data (q.map Char.toLower) = true
  · simp [h1, h2, h3, h4, h5]
  by_cases h6 : containsSub "pattern".data (q.map Char.toLower) = true
  · simp [h1, h2, h3, h4, h5, h6]
  by_cases h7 : containsSub "motif".data (q.map Char.toLower) = true
  · simp [h1, h2, h3, h4, h5, h6, h7]
  by_cases h8 : containsSub "restriction".data (q.map Char.toLower) = true
  · simp [h1, h2, h3, h4, h5, h6, h7, h8]
  by_cases h9 : containsSub "enzyme".data (q.map Char.toLower) = true
  · simp [h1, h2, h3, h4, h5, h6, h7, h8, h9]
  by_cases h10 : containsSub "gc".data (q.map Char.toLower) = true
  · simp [h1, h2, h3, h4, h5, h6, h7, h8, h9, h10]
  · simp [h1, h2, h3, h4, h5, h6, h7, h8, h9, h10]

/-- Step equation of the run scanner. -/
theorem toRunsAux_cons (p : Char → Bool) (acc : Txt) (c : Char) (cs : Txt) :
    toRunsAux p acc (c :: cs) =
      (if p c then toRunsAux p (c :: acc) cs
       else if acc.isEmpty then toRunsAux p [] cs
       else acc.reverse :: toRunsAux p [] cs) := rfl

/-- The `>`-normalization only inserts characters outside `p` next to a
`>`, so it does not change the maximal `p`-runs. -/
theorem toRunsAux_normalize (p : Char → Bool) (h1 : p '\n' = false) (h2 : p '>' = false)
    (l : Txt) : ∀ (b : Bool) (acc : Txt),
    toRunsAux p acc (normalizeGtAux b l) = toRunsAux p acc l := by
  induction l with
  | nil => intro b acc; rfl
  | cons c cs ih =>
    intro b acc
    rw [normalizeGtAux_cons]
    split
    case isTrue h =>
      obtain ⟨hc, -, -⟩ := h
      subst hc
      by_cases hacc : acc.isEmpty
      · rw [toRunsAux_cons, if_neg (by simp [h1]), if_pos hacc]
        rw [toRunsAux_cons, if_neg (by simp [h2]), if_pos (show ([] : Txt).isEmpty = true from rfl)]
        rw [ih false []]
        rw [toRunsAux_cons, if_neg (by simp [h2]), if_pos hacc]
      · rw [toRunsAux_cons, if_neg (by simp [h1]), if_neg hacc]
        rw [toRunsAux_cons, if_neg (by simp [h2]), if_pos (show ([] : Txt).isEmpty = true from rfl)]
        rw [ih false []]
        rw [toRunsAux_cons, if_neg (by simp [h2]), if_neg hacc]
    case isFalse h =>
      rw [toRunsAux_cons, toRunsAux_cons]
      by_cases hpc : p c
      · rw [if_pos hpc, if_pos hpc, ih]
      · rw [if_neg hpc, if_neg hpc]
        by_cases hacc : acc.isEmpty
        · rw [if_pos hacc, if_pos hacc, ih]
        · rw [if_neg hacc, if_neg hacc, ih]

/-- Normalization does not change the first long `[ATCG]` run. -/
theorem firstRun10_normalize (q : Txt) : firstRun10 (normalizeQuery q) = firstRun10 q := by
  unfold firstRun10 toRuns normalizeQuery
  rw [toRunsAux_normalize isAcgtLetter (by decide) (by decide)]

/-- A run found by `firstRun10` has at least 10 characters, hence is
non-empty. -/
theorem firstRun10_nonempty (q r : Txt) (h : firstRun10 q = some r) : r.isEmpty = false := by
  unfold firstRun10 at h
  obtain ⟨r0, hf, hr⟩ := Option.map_eq_some'.mp h
  have hlen := List.find?_some hf
  simp only [decide_eq_true_eq] at hlen
  rw [← hr]
  cases r0 with
  | nil => simp at hlen
  | cons a l => simp

/-- The head of a non-empty extractor result has at least 10 characters. -/
theorem extract_mem_length (t s : Txt) (rest : List Txt)
    (h : extract_sequences_from_text t = s :: rest) : 10 ≤ s.length := by
  have hm : s ∈ extract_sequences_from_text t := by rw [h]; simp
  unfold extract_sequences_from_text at hm
  have := (List.mem_filter.mp hm).2
  simpa using this

/-- A value served from the example table is non-empty. -/
theorem lookupExample_nonempty (g v : Txt) (h : lookupExample g = some v) : v.isEmpty = false := by
  unfold lookupExample at h
  obtain ⟨kv, hf, hv⟩ := Option.map_eq_some'.mp h
  have hmem := List.mem_of_find?_eq_some hf
  have hvals : ∀ kv ∈ exampleSequences, (Prod.snd kv).isEmpty = false := by decide
  rw [← hv]
  exact hvals kv hmem

/-- Direct-fallback agreement: with a falsy carried candidate, the spec
answer is the first long run of the raw query, and the code computes it on
the normalized query. -/
theorem resolveStep4_agree (q0 : Txt) (s1 : Option Txt) (hfal : truthy s1 = false) (s : Txt) :
    firstRun10 q0 = some s ↔
      (resolveStep4 (normalizeQuery q0) s1 = some s ∧ s.isEmpty = false) := by
  unfold resolveStep4
  rw [if_neg (by simp [hfal])]
  rw [firstRun10_normalize q0]
  cases hfr : firstRun10 q0 with
  | some r =>
    constructor
    · intro h
      refine ⟨h, ?_⟩
      injection h with h'
      rw [← h']
      exact firstRun10_nonempty q0 r hfr
    · intro h
      exact h.1
  | none =>
    constructor
    · intro h
      cases h
    · intro h
      exfalso
      have h1 : s1 = some s := h.1
      rw [h1] at hfal
      simp [truthy] at hfal
      subst hfal
      simpa using h.2

/-- Table-lookup agreement: after a failed fetch, both sides consult the
example table, the code falling through to the direct fallback when it
misses. -/
theorem lookup_agree (q0 : Txt) (s1 : Option Txt) (g : Txt) (hfal : truthy s1 = false) (s : Txt) :
    (match lookupExample g with
     | some e => (some e : Option Txt)
     | none => firstRun10 q0) = some s ↔
      (resolveStep4 (normalizeQuery q0)
        (match lookupExample g with
         | some e => (some e : Option Txt)
         | none => s1) = some s ∧ s.isEmpty = false) := by
  cases hl : lookupExample g with
  | some e =>
    have hee := lookupExample_nonempty g e hl
    simp only []
    unfold resolveStep4
    rw [if_pos (by simp [truthy, hee])]
    constructor
    · intro h
      refine ⟨h, ?_⟩
      injection h with h'
      rw [← h']
      exact hee
    · intro h
      exact h.1
  | none =>
    simp only []
    exact resolveStep4_agree q0 s1 hfal s

/-- Agreement of the claim-worded sequence resolution with the code. -/
theorem resolveSequenceSpec_agree (fetch : Txt → Option Txt) (q0 : Txt) (parsed : ParsedIntent)
    (s : Txt) :
    resolveSequenceSpec fetch q0 parsed = some s ↔
      (resolveSequence fetch (normalizeQuery q0) parsed = some s ∧ s.isEmpty = false) := by
  unfold resolveSequenceSpec resolveSequence
  cases hx : extract_sequences_from_text (normalizeQuery q0) with
  | cons s0 rest =>
    simp only []
    have h10 := extract_mem_length (normalizeQuery q0) s0 rest hx
    have hne : s0.isEmpty = false := by
      cases s0 with
      | nil => simp at h10
      | cons a l => rfl
    unfold resolveStep3
    rw [if_pos (by simp [truthy, hne])]
    unfold resolveStep4
    rw [if_pos (by simp [truthy, hne])]
    constructor
    · intro h
      refine ⟨h, ?_⟩
      injection h with h'
      rw [← h']
      exact hne
    · intro h
      exact h.1
  | nil =>
    simp only []
    by_cases hps : truthy parsed.sequence = true
    · rw [if_pos hps]
      cases hpse : parsed.sequence with
      | none => rw [hpse] at hps; simp [truthy] at hps
      | some ps =>
        have hpe : ps.isEmpty = false := by
          rw [hpse] at hps
          simpa [truthy] using hps
        unfold resolveStep3
        rw [if_pos (by simp [truthy, hpe])]
        unfold resolveStep4
        rw [if_pos (by simp [truthy, hpe])]
        constructor
        · intro h
          refine ⟨h, ?_⟩
          injection h with h'
          rw [← h']
          exact hpe
        · intro h
          exact h.1
    · have hps' : truthy parsed.sequence = false := by simpa using hps
      rw [if_neg hps]
      unfold resolveStep3
      rw [if_neg (by simp [hps'])]
      cases hg : parsed.gene_name with
      | none =>
        simp only []
        exact resolveStep4_agree q0 parsed.sequence hps' s
      | some g =>
        simp only []
        by_cases hge : g.isEmpty = true
        · rw [if_pos hge, if_pos hge]
          exact resolveStep4_agree q0 parsed.sequence hps' s
        · rw [if_neg hge, if_neg hge]
          unfold geneFetchSpec
          cases hf : fetch g with
          | some f =>
            simp only []
            by_cases hfe : f.isEmpty = true
            · rw [if_pos hfe, if_neg (by simp [truthy, hfe])]
              exact lookup_agree q0 parsed.sequence g hps' s
            · have hfe' : f.isEmpty = false := by simpa using hfe
              rw [if_neg hfe, if_pos (by simp [truthy, hfe'])]
              unfold resolveStep4
              rw [if_pos (by simp [truthy, hfe'])]
              constructor
              · intro h
                refine ⟨h, ?_⟩
                injection h with h'
                rw [← h']
                exact hfe'
              · intro h
                exact h.1
          | none =>
            simp only []
            rw [if_neg (by simp [truthy])]
            exact lookup_agree q0 parsed.sequence g hps' s

/-- C2: the sequence is resolved in the claimed order, first success
winning — extractor result, then the parsed sequence field, then the
gene-name fetch with example-table fallback, then the first long `[ATCG]`
run of the uppercased raw query — and when every step fails,
`process_query` returns the failure result with the claimed error
message. -/
theorem claim_c2_sequence_resolution (env : Env) (q0 : Txt) (parsed : ParsedIntent) :
    (∀ s : Txt, resolveSequenceSpec env.fetch_sequence q0 parsed = some s ↔
      (resolveSequence env.fetch_sequence (normalizeQuery q0) parsed = some s ∧
        s.isEmpty = false))
    ∧ (resolveSequenceSpec env.fetch_sequence q0 parsed = none →
        processQueryParsed env (normalizeQuery q0) parsed =
          .ok (.failure noSequenceMsg parsed)) := by
  refine ⟨fun s => resolveSequenceSpec_agree env.fetch_sequence q0 parsed s, fun hnone => ?_⟩
  unfold processQueryParsed
  cases hcode : resolveSequence env.fetch_sequence (normalizeQuery q0) parsed with
  | none => rfl
  | some sq =>
    by_cases hsq : sq.isEmpty = true
    · simp [hsq]
    · exfalso
      have hspec := (resolveSequenceSpec_agree env.fetch_sequence q0 parsed sq).mpr
        ⟨hcode, by simpa using hsq⟩
      rw [hnone] at hspec
      exact Option.noConfusion hspec

/-- Witness for C2: the extractor step wins on a concrete query, so the
code resolves the same sequence the claim-worded resolution names. -/
theorem claim_c2_witness :
    resolveSequence trivEnv.fetch_sequence (normalizeQuery c2query) emptyIntent =
      some "ATGGCGAATTACGTAGCTAA".data ∧
      ("ATGGCGAATTACGTAGCTAA".data : Txt).isEmpty = false :=
  ((claim_c2_sequence_resolution trivEnv c2query emptyIntent).1 "ATGGCGAATTACGTAGCTAA".data).mp
    (by decide)

/-- A failed `strFind` means no occurrence at or after `start`. -/
theorem strFind_none (seq motif : Txt) (start : Nat) (h : strFind seq motif start = none) :
    ∀ i, start ≤ i → i ≤ seq.length → motif.isPrefixOf (seq.drop i) = false := by
  intro i hi hle
  rw [strFind] at h
  split at h
  · omega
  · split at h
    · exact absurd h (by simp)
    · rename_i h1 h2
      rw [Option.map_eq_none'] at h
      rcases Nat.eq_or_lt_of_le hi with rfl | hlt
      · exact Bool.eq_false_iff.mpr h2
      · exact strFind_none seq motif (start + 1) h i hlt hle
termination_by seq.length + 1 - start

/-- A successful `strFind` returns the least occurrence at or after
`start`. -/
theorem strFind_some (seq motif : Txt) (start : Nat)
    (x : {i : Nat // start ≤ i ∧ i ≤ seq.length}) (h : strFind seq motif start = some x) :
    motif.isPrefixOf (seq.drop x.1) = true ∧
      ∀ j, start ≤ j → j < x.1 → motif.isPrefixOf (seq.drop j) = false := by
  rw [strFind] at h
  split at h
  · exact absurd h (by simp)
  · split at h
    · rename_i h1 h2
      injection h with h'
      have hx : x.1 = start := by rw [← h']
      rw [hx]
      exact ⟨h2, fun j hj hjlt => by omega⟩
    · rename_i h1 h2
      rw [Option.map_eq_some'] at h
      obtain ⟨y, hy, hxy⟩ := h
      have ih := strFind_some seq motif (start + 1) y hy
      have hx1 : x.1 = y.1 := by rw [← hxy]
      rw [hx1]
      refine ⟨ih.1, fun j hj hjlt => ?_⟩
      rcases Nat.eq_or_lt_of_le hj with rfl | hlt
      · exact Bool.eq_false_iff.mpr h2
      · exact ih.2 j hlt (by omega)
termination_by seq.length + 1 - start

/-- The find loop collects exactly the occurrence positions at or after
`start`, in ascending order. -/
theorem findAllOcc_eq (seq motif : Txt) (start : Nat) :
    findAllOcc seq motif start =
      (List.range' start (seq.length + 1 - start)).filter
        (fun i => motif.isPrefixOf (seq.drop i)) := by
  rw [findAllOcc]
  cases hf : strFind seq motif start with
  | none =>
    have hno := strFind_none seq motif start hf
    symm
    rw [List.filter_eq_nil_iff]
    intro a ha
    rw [List.mem_range'_1] at ha
    simp only [Bool.not_eq_true]
    exact hno a ha.1 (by omega)
  | some x =>
    change (x.1 :: findAllOcc seq motif (x.1 + 1)) = _
    obtain ⟨hpre, hmin⟩ := strFind_some seq motif start x hf
    have hsplit : List.range' start (seq.length + 1 - start) =
        List.range' start (x.1 - start) ++ List.range' x.1 (seq.length + 1 - x.1) := by
      have heq := List.range'_append start (x.1 - start) (seq.length + 1 - x.1) 1
      have e1 : start + 1 * (x.1 - start) = x.1 := by have := x.2; omega
      have e2 : seq.length + 1 - x.1 + (x.1 - start) = seq.length + 1 - start := by
        have := x.2
        omega
      rw [e1, e2] at heq
      exact heq.symm
    rw [hsplit, List.filter_append]
    have hfilt1 : (List.range' start (x.1 - start)).filter
        (fun i => motif.isPrefixOf (seq.drop i)) = [] := by
      rw [List.filter_eq_nil_iff]
      intro a ha
      rw [List.mem_range'_1] at ha
      simp only [Bool.not_eq_true]
      exact hmin a ha.1 (by omega)
    rw [hfilt1, List.nil_append]
    have e3 : seq.length + 1 - x.1 = (seq.length - x.1) + 1 := by have := x.2; omega
    rw [e3, List.range'_succ]
    rw [List.filter_cons, if_pos (by simpa using hpre)]
    have e4 : seq.length - x.1 = seq.length + 1 - (x.1 + 1) := by omega
    rw [e4]
    rw [findAllOcc_eq seq motif (x.1 + 1)]
termination_by seq.length + 1 - start
decreasing_by
  have := x.2
  omega

/-- The find loop from position 0 lists every occurrence of the motif. -/
theorem findAllOcc_zero (seq motif : Txt) : findAllOcc seq motif 0 = specOcc seq motif := by
  rw [findAllOcc_eq]
  unfold specOcc
  rw [List.range_eq_range']
  simp

/-- The loop-built hit list is the claim-worded hit list. -/
theorem restrictionHits_spec_eq (seq : Txt) : restrictionHits seq = restrictionHitsSpec seq := by
  unfold restrictionHits restrictionHitsSpec
  simp only [findAllOcc_zero]

/-- Every hit line contains an opening parenthesis. -/
theorem paren_mem_hits (seq h : Txt) (hm : h ∈ restrictionHitsSpec seq) : '(' ∈ h := by
  unfold restrictionHitsSpec at hm
  rw [List.mem_flatMap] at hm
  obtain ⟨nm, hnm, hh⟩ := hm
  rw [List.mem_map] at hh
  obtain ⟨i, hi, rfl⟩ := hh
  unfold siteLine
  exact List.mem_append.mpr (Or.inl (List.mem_append.mpr (Or.inl (List.mem_append.mpr
    (Or.inl (List.mem_append.mpr (Or.inr (by decide))))))))

/-- Step equation of the joiner for two or more lines. -/
theorem joinLines_cons_cons (h x : Txt) (t : List Txt) :
    joinLines (h :: x :: t) = h ++ '\n' :: joinLines (x :: t) := rfl

/-- A joined non-empty hit list is never the fixed no-hit message: every
hit line carries a parenthesis and the message carries none. -/
theorem joinLines_ne_msg (hits : List Txt) (hne : hits ≠ [])
    (hparen : ∀ h ∈ hits, '(' ∈ h) : joinLines hits ≠ noSitesMsg := by
  match hits with
  | [] => exact absurd rfl hne
  | [h] =>
    have hmem : '(' ∈ joinLines [h] := hparen h (by simp)
    intro heq
    rw [heq] at hmem
    revert hmem
    decide
  | h :: x :: t =>
    have hmem : '(' ∈ joinLines (h :: x :: t) := by
      rw [joinLines_cons_cons]
      exact List.mem_append.mpr (Or.inl (hparen h (by simp)))
    intro heq
    rw [heq] at hmem
    revert hmem
    decide

/-- C10: `restriction_sites` scans the uppercased, newline-stripped
sequence against the four fixed motifs, emits one 1-based hit line for
every occurrence (overlaps included) grouped in fixed enzyme order, and
returns the fixed no-hit message exactly when no motif occurs. -/
theorem claim_c10_restriction_sites (s : Txt) :
    restriction_sites s = restriction_sitesSpec s ∧
      (restriction_sites s == noSitesMsg) = noMotifOccursB s := by
  have h1 : restriction_sites s = restriction_sitesSpec s := by
    unfold restriction_sites restriction_sitesSpec
    simp only [restrictionHits_spec_eq]
  refine ⟨h1, ?_⟩
  rw [h1]
  unfold restriction_sitesSpec noMotifOccursB
  by_cases he : (restrictionHitsSpec (normSeq s)).isEmpty = true
  · rw [if_pos he]
    have hnil : restrictionHitsSpec (normSeq s) = [] := List.isEmpty_iff.mp he
    unfold restrictionHitsSpec at hnil
    rw [List.flatMap_eq_nil_iff] at hnil
    rw [beq_self_eq_true]
    symm
    rw [List.all_eq_true]
    intro nm hnm
    have := hnil nm hnm
    rw [List.map_eq_nil_iff] at this
    simp [this]
  · rw [if_neg he]
    have hne : restrictionHitsSpec (normSeq s) ≠ [] := by
      intro hcon
      exact he (by simp [hcon])
    have hjoin : joinLines (restrictionHitsSpec (normSeq s)) ≠ noSitesMsg :=
      joinLines_ne_msg _ hne (fun h hm => paren_mem_hits (normSeq s) h hm)
    rw [beq_eq_false_iff_ne.mpr hjoin]
    symm
    rw [List.all_eq_false]
    have hex : ∃ nm ∈ restrictionTable, ((specOcc (normSeq s) nm.2).map
        (siteLine nm.1 nm.2)) ≠ [] := by
      by_contra hcon
      push_neg at hcon
      apply hne
      unfold restrictionHitsSpec
      rw [List.flatMap_eq_nil_iff]
      exact hcon
    obtain ⟨nm, hnm, hcne⟩ := hex
    refine ⟨nm, hnm, fun hcon => hcne ?_⟩
    rw [List.isEmpty_iff.mp hcon, List.map_nil]
